import Mathlib

/-!
Verification of the evaluator of the `rfc2047-decoder` repository
(`src/evaluator.rs`).

Modelling conventions:

* Rust `Vec<u8>` becomes `List Nat` (each element a byte value `< 256`).
* Rust `String` / `&str` (UTF-8 encoded text) also becomes `List Nat`:
  a Rust string *is* its UTF-8 byte sequence, and the only string
  operations the evaluator uses (`push_str`, `to_string`) are
  byte-level concatenation and copying.
* Rust `char` (a Unicode scalar value) becomes `Nat` (the scalar value).
* `Result<T, E>` becomes `Except E T`.

The evaluator depends on three external crates (`base64` v0.13,
`quoted_printable` v0.4, `charset` v0.1) and on the repository's own
`parser` module; none of these are part of `src/evaluator.rs`, so they
are modelled here, each with a doc comment describing the origin of the
model.
-/

/-! ## UTF-8: validation and lossy decoding

Models `std::str::from_utf8` (validation) and `String::from_utf8_lossy`
(replacement of each maximal ill-formed subsequence by U+FFFD, whose
UTF-8 encoding is the three bytes `EF BF BD`). -/

instance {ε α : Type _} [DecidableEq ε] [DecidableEq α] : DecidableEq (Except ε α) := fun a b =>
  match a, b with
  | .ok x, .ok y => decidable_of_iff (x = y) (by simp)
  | .error x, .error y => decidable_of_iff (x = y) (by simp)
  | .ok _, .error _ => .isFalse (by simp)
  | .error _, .ok _ => .isFalse (by simp)

/-- The UTF-8 encoding of U+FFFD REPLACEMENT CHARACTER. -/
def replacementBytes : List Nat := [0xEF, 0xBF, 0xBD]

/-- Is `c` a UTF-8 continuation byte (`0x80..=0xBF`)? -/
def contB (c : Nat) : Bool := 0x80 ≤ c && c ≤ 0xBF

/-- The constraint on the second byte of a multi-byte UTF-8 sequence with
leading byte `b` (it is narrower than `0x80..=0xBF` for `0xE0`, `0xED`,
`0xF0` and `0xF4`, ruling out overlong forms, surrogates and values
above U+10FFFF). -/
def cont2ok (b c1 : Nat) : Bool :=
  if b = 0xE0 then 0xA0 ≤ c1 && c1 ≤ 0xBF
  else if b = 0xED then 0x80 ≤ c1 && c1 ≤ 0x9F
  else if b = 0xF0 then 0x90 ≤ c1 && c1 ≤ 0xBF
  else if b = 0xF4 then 0x80 ≤ c1 && c1 ≤ 0x8F
  else contB c1

/-- UTF-8 validity of a byte sequence, exactly as checked by
`std::str::from_utf8`. -/
def utf8Valid : List Nat → Bool
  | [] => true
  | b :: rest =>
    if b ≤ 0x7F then utf8Valid rest
    else
      match rest with
      | [] => false
      | c1 :: r1 =>
        if 0xC2 ≤ b && b ≤ 0xDF then contB c1 && utf8Valid r1
        else
          match r1 with
          | [] => false
          | c2 :: r2 =>
            if 0xE0 ≤ b && b ≤ 0xEF then cont2ok b c1 && contB c2 && utf8Valid r2
            else
              match r2 with
              | [] => false
              | c3 :: r3 =>
                (0xF0 ≤ b && b ≤ 0xF4) && cont2ok b c1 && contB c2 && contB c3 &&
                  utf8Valid r3

/-- Models `String::from_utf8_lossy` (also the UTF-8 decoder of
`encoding_rs`, used by the `charset` crate): well-formed sequences are
copied through, and each maximal subpart of an ill-formed subsequence is
replaced by one U+FFFD. -/
def from_utf8_lossy : List Nat → List Nat
  | [] => []
  | b :: rest =>
    if b ≤ 0x7F then b :: from_utf8_lossy rest
    else
      match rest with
      | [] => replacementBytes
      | c1 :: r1 =>
        if 0xC2 ≤ b && b ≤ 0xDF then
          if contB c1 then b :: c1 :: from_utf8_lossy r1
          else replacementBytes ++ from_utf8_lossy (c1 :: r1)
        else if 0xE0 ≤ b && b ≤ 0xEF then
          if cont2ok b c1 then
            match r1 with
            | [] => replacementBytes
            | c2 :: r2 =>
              if contB c2 then b :: c1 :: c2 :: from_utf8_lossy r2
              else replacementBytes ++ from_utf8_lossy (c2 :: r2)
          else replacementBytes ++ from_utf8_lossy (c1 :: r1)
        else if 0xF0 ≤ b && b ≤ 0xF4 then
          if cont2ok b c1 then
            match r1 with
            | [] => replacementBytes
            | c2 :: r2 =>
              if contB c2 then
                match r2 with
                | [] => replacementBytes
                | c3 :: r3 =>
                  if contB c3 then b :: c1 :: c2 :: c3 :: from_utf8_lossy r3
                  else replacementBytes ++ from_utf8_lossy (c3 :: r3)
              else replacementBytes ++ from_utf8_lossy (c2 :: r2)
          else replacementBytes ++ from_utf8_lossy (c1 :: r1)
        else replacementBytes ++ from_utf8_lossy (c1 :: r1)

example : utf8Valid [104, 105] = true := by decide
example : utf8Valid [0xC3, 0xA9] = true := by decide
example : utf8Valid [0xFF] = false := by decide
example : utf8Valid [0xE0, 0x80, 0x80] = false := by decide
example : from_utf8_lossy [104, 0xFF, 105] = [104, 0xEF, 0xBF, 0xBD, 105] := by decide
example : from_utf8_lossy [0xE0, 0xA0] = [0xEF, 0xBF, 0xBD] := by decide
example : from_utf8_lossy [0xC3, 0xA9] = [0xC3, 0xA9] := by decide

/-! ## base64 (crate `base64` v0.13, standard alphabet)

Models `base64::decode` (standard alphabet `A-Z a-z 0-9 + /`, padding
character `=`; strict: any byte outside the alphabet, misplaced
padding, an input length of 1 mod 4, or non-zero trailing bits make
decoding fail) and `base64::encode` (canonical padded encoding). -/

/-- Error type of `base64::DecodeError`. -/
inductive Base64DecodeError
  | InvalidByte
  | InvalidLength
  | InvalidLastSymbol
deriving DecidableEq, Repr

/-- Value of a standard-alphabet base64 symbol, `none` for a byte
outside the alphabet (note `=` (61) is not in the alphabet). -/
def alphaVal (c : Nat) : Option Nat :=
  if 65 ≤ c ∧ c ≤ 90 then some (c - 65)
  else if 97 ≤ c ∧ c ≤ 122 then some (c - 71)
  else if 48 ≤ c ∧ c ≤ 57 then some (c + 4)
  else if c = 43 then some 62
  else if c = 47 then some 63
  else none

/-- The standard-alphabet symbol for a 6-bit value. -/
def alphaChar (v : Nat) : Nat :=
  if v < 26 then v + 65
  else if v < 52 then v + 71
  else if v < 62 then v - 4
  else if v = 62 then 43
  else 47

/-- Decode a final base64 chunk of two symbols into one byte (used for
both `xx==` and an unpadded trailing `xx`); the low 4 bits of the second
symbol must be zero. -/
def b64Final2 (c1 c2 : Nat) : Except Base64DecodeError (List Nat) :=
  match alphaVal c1, alphaVal c2 with
  | some v1, some v2 =>
    if v2 % 16 = 0 then .ok [v1 * 4 + v2 / 16] else .error .InvalidLastSymbol
  | _, _ => .error .InvalidByte

/-- Decode a final base64 chunk of three symbols into two bytes; the low
2 bits of the third symbol must be zero. -/
def b64Final3 (c1 c2 c3 : Nat) : Except Base64DecodeError (List Nat) :=
  match alphaVal c1, alphaVal c2, alphaVal c3 with
  | some v1, some v2, some v3 =>
    if v3 % 4 = 0 then .ok [v1 * 4 + v2 / 16, v2 % 16 * 16 + v3 / 4]
    else .error .InvalidLastSymbol
  | _, _, _ => .error .InvalidByte

/-- Decode a full base64 quad of four symbols into three bytes. -/
def b64Quad (c1 c2 c3 c4 : Nat) : Except Base64DecodeError (List Nat) :=
  match alphaVal c1, alphaVal c2, alphaVal c3, alphaVal c4 with
  | some v1, some v2, some v3, some v4 =>
    .ok [v1 * 4 + v2 / 16, v2 % 16 * 16 + v3 / 4, v3 % 4 * 64 + v4]
  | _, _, _, _ => .error .InvalidByte

/-- Models `base64::decode`: processes the input in chunks of four
symbols; `=` padding may appear only at the end of the input (one `=`
after three symbols, or two after two); a trailing chunk of two or three
symbols without padding is also accepted; a trailing single symbol is an
invalid length. -/
def base64_decode_bytes : List Nat → Except Base64DecodeError (List Nat)
  | [] => .ok []
  | [_] => .error .InvalidLength
  | [c1, c2] => b64Final2 c1 c2
  | [c1, c2, c3] => if c3 = 61 then .error .InvalidByte else b64Final3 c1 c2 c3
  | [c1, c2, 61, 61] => b64Final2 c1 c2
  | [c1, c2, c3, 61] => b64Final3 c1 c2 c3
  | [c1, c2, c3, c4] => b64Quad c1 c2 c3 c4
  | c1 :: c2 :: c3 :: c4 :: rest =>
    match b64Quad c1 c2 c3 c4 with
    | .ok bs =>
      match base64_decode_bytes rest with
      | .ok more => .ok (bs ++ more)
      | .error e => .error e
    | .error e => .error e

/-- Models `base64::encode` (canonical, padded). -/
def base64_encode : List Nat → List Nat
  | [] => []
  | [a] => [alphaChar (a / 4), alphaChar (a % 4 * 16), 61, 61]
  | [a, b] => [alphaChar (a / 4), alphaChar (a % 4 * 16 + b / 16), alphaChar (b % 16 * 4), 61]
  | a :: b :: c :: rest =>
    alphaChar (a / 4) :: alphaChar (a % 4 * 16 + b / 16) ::
      alphaChar (b % 16 * 4 + c / 64) :: alphaChar (c % 64) :: base64_encode rest

example : base64_encode [104, 105] = [97, 71, 107, 61] := by decide
example : base64_decode_bytes [97, 71, 107, 61] = .ok [104, 105] := by decide
example : base64_decode_bytes [97, 71, 107] = .ok [104, 105] := by decide
example : base64_decode_bytes [33, 33, 33] = .error .InvalidByte := by decide
example : base64_decode_bytes [97, 95, 98, 99] = .error .InvalidByte := by decide
example : base64_encode [104, 101, 108, 108, 111] =
    [97, 71, 86, 115, 98, 71, 56, 61] := by decide
example : base64_decode_bytes (base64_encode [104, 101, 108, 108, 111]) =
    .ok [104, 101, 108, 108, 111] := by decide

/-! ## quoted-printable (crate `quoted_printable` v0.4)

Models `quoted_printable::decode`. The crate first drops every byte
that is not HT, CR, LF or printable ASCII (`0x20..=0x7E`) — in
`Strict` mode a dropped byte is instead an error — then splits the
result into lines (a line terminator is LF, with a CR immediately
before the LF stripped; a trailing terminator does not open a final
empty line), decodes `=XY` hex escapes on each line, treats `=` at the
end of a line as a soft line break (suppressing the line break), and
rejoins lines with CRLF. Before a line is decoded, its trailing space
and horizontal-tab bytes are removed (RFC 2045 transport padding).
Malformed escapes (a non-hex or missing octet after `=`, lowercase hex,
a dangling soft break at end of input) are errors in `Strict` mode
only; in `Robust` mode the offending bytes are passed through and
decoding always succeeds. -/

/-- Error type of `quoted_printable::QuotedPrintableError`. -/
inductive QuotedPrintableDecodeError
  | InvalidByteInInput
  | IncompleteHexOctet
  | InvalidHexOctet
  | LowercaseHexOctet
deriving DecidableEq, Repr

/-- Parse mode of `quoted_printable::ParseMode`. -/
inductive QPParseMode
  | Strict
  | Robust
deriving DecidableEq, Repr

/-- Is `c` an ASCII hex digit? -/
def isHexDigitByte (c : Nat) : Bool :=
  (48 ≤ c && c ≤ 57) || (65 ≤ c && c ≤ 70) || (97 ≤ c && c ≤ 102)

/-- Is `c` a lowercase ASCII hex digit? -/
def isLowerHexByte (c : Nat) : Bool := 97 ≤ c && c ≤ 102

/-- Numeric value of an ASCII hex digit. -/
def hexVal (c : Nat) : Nat :=
  if 48 ≤ c ∧ c ≤ 57 then c - 48
  else if 65 ≤ c ∧ c ≤ 70 then c - 55
  else c - 87

/-- The byte filter of `quoted_printable::decode`: keep HT, CR, LF and
printable ASCII. -/
def qpKeepByte (c : Nat) : Bool :=
  c = 9 || c = 10 || c = 13 || (decide (32 ≤ c) && decide (c ≤ 126))

/-- Line splitting as done by Rust `str::lines`: split on LF, strip a CR
immediately preceding each LF, and do not yield a final empty line after
a trailing terminator.  `cur` is the reversed current line. -/
def rustLinesGo (cur : List Nat) : List Nat → List (List Nat)
  | [] => if cur = [] then [] else [cur.reverse]
  | 10 :: rest =>
    (if cur.head? = some 13 then cur.tail else cur).reverse :: rustLinesGo [] rest
  | c :: rest => rustLinesGo (c :: cur) rest

/-- Rust `str::lines` over a byte sequence. -/
def rustLines (l : List Nat) : List (List Nat) := rustLinesGo [] l

/-- Decode one quoted-printable line.  Returns the decoded bytes and
whether the line ended in a soft line break (a trailing `=`).  In
`Robust` mode a malformed escape is passed through literally. -/
def qpLine (mode : QPParseMode) : List Nat → Except QuotedPrintableDecodeError (List Nat × Bool)
  | [] => .ok ([], false)
  | 61 :: rest =>
    match rest with
    | [] => .ok ([], true)
    | [u] =>
      if mode = .Strict then .error .IncompleteHexOctet
      else .ok ([61, u], false)
    | u :: v :: r =>
      if isHexDigitByte u && isHexDigitByte v then
        if mode = .Strict && (isLowerHexByte u || isLowerHexByte v) then
          .error .LowercaseHexOctet
        else
          match qpLine mode r with
          | .ok (bs, soft) => .ok ((hexVal u * 16 + hexVal v) :: bs, soft)
          | .error e => .error e
      else
        if mode = .Strict then .error .InvalidHexOctet
        else
          match qpLine mode r with
          | .ok (bs, soft) => .ok (61 :: u :: v :: bs, soft)
          | .error e => .error e
  | c :: rest =>
    match qpLine mode rest with
    | .ok (bs, soft) => .ok (c :: bs, soft)
    | .error e => .error e

/-- Removal of trailing space and horizontal-tab bytes from a line —
the RFC 2045 transport-padding trim `quoted_printable::decode` applies
to each line before decoding it. -/
def trimEndWs (l : List Nat) : List Nat :=
  (l.reverse.dropWhile fun c => c == 32 || c == 9).reverse

/-- Decode a sequence of quoted-printable lines, trimming each line's
transport padding, and rejoining consecutive lines with CRLF unless the
earlier line ended in a soft line break.  A soft line break on the
final line is an error in `Strict` mode. -/
def qpLines (mode : QPParseMode) : List (List Nat) → Except QuotedPrintableDecodeError (List Nat)
  | [] => .ok []
  | [line] =>
    match qpLine mode (trimEndWs line) with
    | .ok (bs, soft) =>
      if mode = .Strict && soft then .error .IncompleteHexOctet else .ok bs
    | .error e => .error e
  | line :: rest =>
    match qpLine mode (trimEndWs line) with
    | .ok (bs, soft) =>
      match qpLines mode rest with
      | .ok more => .ok (bs ++ (if soft then [] else [13, 10]) ++ more)
      | .error e => .error e
    | .error e => .error e

/-- Models `quoted_printable::decode`. -/
def quoted_printable_decode (mode : QPParseMode) (input : List Nat) :
    Except QuotedPrintableDecodeError (List Nat) :=
  let filtered := input.filter qpKeepByte
  if mode = .Strict ∧ filtered.length ≠ input.length then
    .error .InvalidByteInInput
  else qpLines mode (rustLines filtered)

example : quoted_printable_decode .Robust [104, 61, 52, 49, 105] = .ok [104, 65, 105] := by decide
example : quoted_printable_decode .Robust [97, 61, 13, 10, 98] = .ok [97, 98] := by decide
example : quoted_printable_decode .Robust [97, 13, 10, 98] = .ok [97, 13, 10, 98] := by decide
example : quoted_printable_decode .Robust [10] = .ok [] := by decide
example : quoted_printable_decode .Robust [0] = .ok [] := by decide
example : quoted_printable_decode .Robust [61] = .ok [] := by decide
example : quoted_printable_decode .Robust [61, 122, 122] = .ok [61, 122, 122] := by decide
example : quoted_printable_decode .Robust [97, 32, 9] = .ok [97] := by decide
example : quoted_printable_decode .Robust [97, 32, 98] = .ok [97, 32, 98] := by decide
example : quoted_printable_decode .Strict [61, 122, 122] = .error .InvalidHexOctet := by decide
example : quoted_printable_decode .Strict [0] = .error .InvalidByteInInput := by decide

/-! ## charset (crate `charset` v0.1)

Models `charset::Charset::for_label`, `Charset::decode` and
`charset::decode_ascii`.  The real crate resolves labels through the
WHATWG encoding registry of `encoding_rs` (case-insensitive,
alias-aware) and decodes with `encoding_rs::Encoding::decode`, which
first performs BOM sniffing: an input starting with the UTF-8 BOM
`EF BB BF` is decoded as UTF-8, and an input starting with a UTF-16
BOM (`FE FF` big-endian, `FF FE` little-endian) as the corresponding
UTF-16 variant, in every case overriding the labelled encoding and
with the BOM removed from the output; only then is the resolved
encoding's lossy transform applied.
Modelled from the spec: a minimal registry covering the common labels
named in the spec (UTF-8, ISO-8859-1/Latin-1, Windows-1252, ASCII; in
the WHATWG registry the latter three are all aliases of windows-1252),
case-insensitively; every other label is unresolved.  Claims are only
instantiated at labels whose resolution status in this minimal registry
agrees with the real registry. -/

/-- The charsets of the minimal registry. -/
inductive CharsetModel
  | utf8
  | windows1252
deriving DecidableEq, Repr

/-- ASCII lowercasing of a label byte. -/
def asciiLowerByte (c : Nat) : Nat := if 65 ≤ c ∧ c ≤ 90 then c + 32 else c

/-- Labels resolving to UTF-8 (lowercased): `utf-8`, `utf8`. -/
def utf8Labels : List (List Nat) :=
  [[117, 116, 102, 45, 56], [117, 116, 102, 56]]

/-- Labels resolving to windows-1252 (lowercased): `ascii`, `us-ascii`,
`iso-8859-1`, `latin1`, `l1`, `windows-1252`, `cp1252`. -/
def windows1252Labels : List (List Nat) :=
  [[97, 115, 99, 105, 105],
   [117, 115, 45, 97, 115, 99, 105, 105],
   [105, 115, 111, 45, 56, 56, 53, 57, 45, 49],
   [108, 97, 116, 105, 110, 49],
   [108, 49],
   [119, 105, 110, 100, 111, 119, 115, 45, 49, 50, 53, 50],
   [99, 112, 49, 50, 53, 50]]

/-- Models `Charset::for_label`: case-insensitive, alias-aware label
lookup. -/
def charset_for_label (label : List Nat) : Option CharsetModel :=
  let l := label.map asciiLowerByte
  if l ∈ utf8Labels then some .utf8
  else if l ∈ windows1252Labels then some .windows1252
  else none

/-- The windows-1252 mapping from a byte to a Unicode scalar value (the
bytes `0x80..=0x9F` map through the windows-1252 table, all others map
to the identical scalar value). -/
def w1252Scalar (b : Nat) : Nat :=
  if b = 128 then 8364 else if b = 130 then 8218 else if b = 131 then 402
  else if b = 132 then 8222 else if b = 133 then 8230 else if b = 134 then 8224
  else if b = 135 then 8225 else if b = 136 then 710 else if b = 137 then 8240
  else if b = 138 then 352 else if b = 139 then 8249 else if b = 140 then 338
  else if b = 142 then 381 else if b = 145 then 8216 else if b = 146 then 8217
  else if b = 147 then 8220 else if b = 148 then 8221 else if b = 149 then 8226
  else if b = 150 then 8211 else if b = 151 then 8212 else if b = 152 then 732
  else if b = 153 then 8482 else if b = 154 then 353 else if b = 155 then 8250
  else if b = 156 then 339 else if b = 158 then 382 else if b = 159 then 376
  else b

/-- UTF-8 encoding of a Unicode scalar value. -/
def utf8EncodeScalar (c : Nat) : List Nat :=
  if c < 128 then [c]
  else if c < 2048 then [192 + c / 64, 128 + c % 64]
  else if c < 65536 then [224 + c / 4096, 128 + c / 64 % 64, 128 + c % 64]
  else [240 + c / 262144, 128 + c / 4096 % 64, 128 + c / 64 % 64, 128 + c % 64]

/-- Is `u` a UTF-16 high (leading) surrogate code unit? -/
def isHighSurrogate (u : Nat) : Bool := 0xD800 ≤ u && u ≤ 0xDBFF

/-- Is `u` a UTF-16 low (trailing) surrogate code unit? -/
def isLowSurrogate (u : Nat) : Bool := 0xDC00 ≤ u && u ≤ 0xDFFF

/-- Lossy UTF-16 decoding to Unicode scalar values, as performed by
`encoding_rs` after a UTF-16 BOM: bytes are paired into code units
(`big` selects big-endian), a valid surrogate pair yields a
supplementary scalar, an unpaired surrogate yields U+FFFD (the
following unit is then re-examined), and a dangling odd byte at the end
yields U+FFFD. -/
def utf16LossyScalars (big : Bool) : List Nat → List Nat
  | [] => []
  | [_] => [0xFFFD]
  | b1 :: b2 :: rest =>
    let u := if big then b1 * 256 + b2 else b2 * 256 + b1
    if isHighSurrogate u then
      match rest with
      | [] => [0xFFFD]
      | [_] => [0xFFFD, 0xFFFD]
      | c1 :: c2 :: rest2 =>
        let v := if big then c1 * 256 + c2 else c2 * 256 + c1
        if isLowSurrogate v then
          (0x10000 + (u - 0xD800) * 0x400 + (v - 0xDC00)) :: utf16LossyScalars big rest2
        else 0xFFFD :: utf16LossyScalars big (c1 :: c2 :: rest2)
    else if isLowSurrogate u then 0xFFFD :: utf16LossyScalars big rest
    else u :: utf16LossyScalars big rest

/-- Models `Charset::decode` (the `.0` component), i.e.
`encoding_rs::Encoding::decode`: BOM sniffing first (a UTF-8 or UTF-16
BOM overrides the charset and is stripped), then the charset's lossy
decoding transform.  UTF-8 decodes lossily; windows-1252 is total on
bytes. -/
def charset_decode (cs : CharsetModel) (bs : List Nat) : List Nat :=
  match bs with
  | 239 :: 187 :: 191 :: rest => from_utf8_lossy rest
  | 254 :: 255 :: rest => (utf16LossyScalars true rest).flatMap utf8EncodeScalar
  | 255 :: 254 :: rest => (utf16LossyScalars false rest).flatMap utf8EncodeScalar
  | _ =>
    match cs with
    | .utf8 => from_utf8_lossy bs
    | .windows1252 => bs.flatMap fun b => utf8EncodeScalar (w1252Scalar b)

/-- Models `charset::decode_ascii`: every byte below `0x80` is kept as
that ASCII character (including non-printable control bytes); every
byte `0x80` and above becomes U+FFFD. -/
def charset_decode_ascii (bs : List Nat) : List Nat :=
  bs.flatMap fun b => if b < 128 then [b] else replacementBytes

example : charset_for_label [85, 84, 70, 45, 56] = some .utf8 := by decide
example : charset_for_label [120, 121, 122] = none := by decide
example : charset_decode_ascii [104, 7, 200] = [104, 7, 0xEF, 0xBF, 0xBD] := by decide
example : charset_decode .windows1252 [104, 128] = [104, 226, 130, 172] := by decide
example : charset_decode .utf8 [239, 187, 191, 104] = [104] := by decide
example : charset_decode .windows1252 [239, 187, 191, 104] = [104] := by decide
example : charset_decode .utf8 [254, 255, 0, 104] = [104] := by decide
example : charset_decode .utf8 [255, 254, 104, 0] = [104] := by decide
example : charset_decode .utf8 [255, 254, 0, 216, 0, 220] = [240, 144, 128, 128] := by decide

/-! ## The parser's segment type

Modelled from the spec: the `Ast` and `Node` types of the repository's
`parser` module (`crate::parser`), which is not part of
`src/evaluator.rs`.  Per spec §3, a segment is either a clear segment
(raw bytes expected to be readable text) or an encoded segment carrying
raw bytes, a one-character encoding tag and a charset label; an `Ast`
is an ordered sequence of segments.  Field names follow the uses in
`src/evaluator.rs` (`node.encoding`, `node.charset`, `node.bytes`). -/

/-- Payload of an encoded segment. -/
structure EncodedBytesData where
  charset : List Nat
  encoding : Nat
  bytes : List Nat
deriving DecidableEq, Repr

/-- One parsed segment. -/
inductive Node
  | EncodedBytes (node : EncodedBytesData)
  | ClearBytes (clear_bytes : List Nat)
deriving DecidableEq, Repr

/-- The parsed segment sequence. -/
abbrev Ast := List Node

/-! ## The evaluator (`src/evaluator.rs`) -/

/-- The evaluator's error type (`evaluator::Error`): transparent
wrappers around the three underlying codec errors. -/
inductive Error
  | DecodeUtf8Error
  | DecodeBase64Error (e : Base64DecodeError)
  | DecodeQuotedPrintableError (e : QuotedPrintableDecodeError)
deriving DecidableEq, Repr

/-- Models `evaluator::decode_utf8`: `std::str::from_utf8` re-wrapped;
on success the string is the very same bytes. -/
def decode_utf8 (encoded_bytes : List Nat) : Except Error (List Nat) :=
  if utf8Valid encoded_bytes then .ok encoded_bytes
  else .error .DecodeUtf8Error

/-- Models `evaluator::decode_base64`: `base64::decode` re-wrapped. -/
def decode_base64 (encoded_bytes : List Nat) : Except Error (List Nat) :=
  match base64_decode_bytes encoded_bytes with
  | .ok decoded_bytes => .ok decoded_bytes
  | .error e => .error (.DecodeBase64Error e)

/-- Models `evaluator::decode_quoted_printable`: every underscore byte
is rewritten to a space byte, then `quoted_printable::decode` runs in
`Robust` mode. -/
def decode_quoted_printable (encoded_bytes : List Nat) : Except Error (List Nat) :=
  let encoded_bytes := encoded_bytes.map fun b => if b = 95 then 32 else b
  match quoted_printable_decode .Robust encoded_bytes with
  | .ok decoded_bytes => .ok decoded_bytes
  | .error e => .error (.DecodeQuotedPrintableError e)

/-- Models `char::to_uppercase(c).next().unwrap()` as used in
`decode_with_encoding`: ASCII lowercase letters map to their uppercase
letter; every other scalar is kept.  (Full Unicode uppercasing differs
on some non-ASCII scalars, but `b`/`B` are the only Unicode scalars
whose first uppercase character is `B`, so the dispatch on `'B'` below
is unaffected.) -/
def char_to_uppercase_first (c : Nat) : Nat :=
  if 97 ≤ c ∧ c ≤ 122 then c - 32 else c

/-- Models `evaluator::decode_with_encoding`: the tag is uppercased,
`'B'` (66) selects base64, and any other tag — `Some('Q') | _` in the
source — selects quoted-printable. -/
def decode_with_encoding (encoding : Nat) (encoded_bytes : List Nat) :
    Except Error (List Nat) :=
  if char_to_uppercase_first encoding = 66 then decode_base64 encoded_bytes
  else decode_quoted_printable encoded_bytes

/-- Models `evaluator::decode_with_charset`: resolve the label; decode
with the resolved charset's lossy transform, or with `decode_ascii` if
unresolved; always `Ok`. -/
def decode_with_charset (charset : List Nat) (decoded_bytes : List Nat) :
    Except Error (List Nat) :=
  .ok (match charset_for_label charset with
    | some cs => charset_decode cs decoded_bytes
    | none => charset_decode_ascii decoded_bytes)

/-- The text one segment contributes to the output: the body of the
`for` loop of `evaluator::run`, without the accumulator.  An encoded
segment is transfer-decoded then charset-decoded, and on a failure of
either stage the lossy interpretation of the segment's original raw
bytes is substituted; a clear segment is UTF-8-validated, with the same
lossy substitution on failure. -/
def evalNode : Node → List Nat
  | .EncodedBytes node =>
    match decode_with_encoding node.encoding node.bytes with
    | .ok decoded_bytes =>
      match decode_with_charset node.charset decoded_bytes with
      | .ok decoded_str => decoded_str
      | .error _ => from_utf8_lossy node.bytes
    | .error _ => from_utf8_lossy node.bytes
  | .ClearBytes clear_bytes =>
    match decode_utf8 clear_bytes with
    | .ok clear_str => clear_str
    | .error _ => from_utf8_lossy clear_bytes

/-- One iteration of the `for` loop of `evaluator::run`: append the
segment's text to the output buffer. -/
def runBody (output : List Nat) (node : Node) : List Nat :=
  output ++ evalNode node

/-- Models `evaluator::run`: fold the loop body over the segment
sequence starting from the empty buffer and return `Ok` of the result
(the source's only return is `Ok(output)`). -/
def run (ast : Ast) : Except Error (List Nat) :=
  .ok (ast.foldl runBody [])

example : run [] = .ok [] := by decide
example : run [.ClearBytes [104, 105]] = .ok [104, 105] := by decide
example : run [.ClearBytes [255]] = .ok [0xEF, 0xBF, 0xBD] := by decide
example :
    run [.EncodedBytes ⟨[85, 84, 70, 45, 56], 66, [97, 71, 107, 61]⟩] =
      .ok [104, 105] := by decide
example :
    run [.EncodedBytes ⟨[85, 84, 70, 45, 56], 66, [33, 33, 33]⟩] =
      .ok [33, 33, 33] := by decide
example :
    run [.EncodedBytes ⟨[85, 84, 70, 45, 56], 81, [97, 95, 98]⟩] =
      .ok [97, 32, 98] := by decide
example :
    run [.EncodedBytes ⟨[85, 84, 70, 45, 56], 81, [10]⟩] = .ok [] := by decide

/-! ## Helper lemmas -/

theorem foldl_runBody_eq (l : List Node) :
    ∀ acc : List Nat, l.foldl runBody acc = acc ++ (l.map evalNode).flatten := by
  induction l with
  | nil => simp
  | cons n t ih =>
    intro acc
    simp [List.foldl_cons, runBody, ih, List.append_assoc]

/-- The output of `run` is the ordered concatenation of the per-segment
texts. -/
theorem run_eq_flatten (ast : Ast) :
    run ast = .ok ((ast.map evalNode).flatten) := by
  simp [run, foldl_runBody_eq]

/-- The lossy fallback never produces empty text from non-empty bytes. -/
theorem from_utf8_lossy_ne_nil : ∀ l : List Nat, l ≠ [] → from_utf8_lossy l ≠ [] := by
  intro l hl
  cases l with
  | nil => exact absurd rfl hl
  | cons b rest =>
    unfold from_utf8_lossy
    repeat' split
    all_goals simp [replacementBytes]

theorem contB_lt (c : Nat) (h : contB c = true) : c < 256 := by
  simp [contB] at h; omega

theorem cont2ok_lt (b c : Nat) (h : cont2ok b c = true) : c < 256 := by
  unfold cont2ok at h
  repeat' split at h
  all_goals first
    | (exact contB_lt c h)
    | (simp at h; omega)

/-- Bytes of a valid UTF-8 sequence are below 256. -/
theorem utf8Valid_bytes_lt : ∀ l : List Nat, utf8Valid l = true → ∀ x ∈ l, x < 256 := by
  intro l
  induction l using utf8Valid.induct with
  | case1 => intro h x hx; simp at hx
  | case2 b rest hb ih =>
    intro h x hx
    rw [utf8Valid.eq_def] at h
    simp only [if_pos hb] at h
    rcases List.mem_cons.mp hx with rfl | hx
    · omega
    · exact ih h x hx
  | case3 b hb =>
    intro h x hx
    rw [utf8Valid.eq_def] at h
    simp [hb] at h
  | case4 b hb c1 r1 hrange ih =>
    intro h x hx
    rw [utf8Valid.eq_def] at h
    simp only [if_neg hb, hrange, if_true, Bool.and_eq_true] at h
    simp only [Bool.and_eq_true, decide_eq_true_eq] at hrange
    rcases List.mem_cons.mp hx with rfl | hx
    · omega
    rcases List.mem_cons.mp hx with rfl | hx
    · exact contB_lt x h.1
    · exact ih h.2 x hx
  | case5 b hb c1 hrange =>
    intro h x hx
    rw [utf8Valid.eq_def] at h
    simp [hb, hrange] at h
  | case6 b hb c1 hr1 c2 r2 hrange ih =>
    intro h x hx
    rw [utf8Valid.eq_def] at h
    simp only [if_neg hb, hr1, hrange, if_true, if_false, Bool.false_eq_true,
      Bool.and_eq_true] at h
    simp only [Bool.and_eq_true, decide_eq_true_eq] at hrange
    rcases List.mem_cons.mp hx with rfl | hx
    · omega
    rcases List.mem_cons.mp hx with rfl | hx
    · exact cont2ok_lt b x h.1.1
    rcases List.mem_cons.mp hx with rfl | hx
    · exact contB_lt x h.1.2
    · exact ih h.2 x hx
  | case7 b hb c1 hr1 c2 hr2 =>
    intro h x hx
    rw [utf8Valid.eq_def] at h
    simp [hb, hr1, hr2] at h
  | case8 b hb c1 hr1 c2 hr2 c3 r3 ih =>
    intro h x hx
    rw [utf8Valid.eq_def] at h
    simp only [if_neg hb, hr1, hr2, if_false, Bool.false_eq_true, Bool.and_eq_true,
      decide_eq_true_eq] at h
    obtain ⟨⟨⟨⟨hf, h1⟩, h2⟩, h3⟩, h4⟩ := h
    rcases List.mem_cons.mp hx with rfl | hx
    · omega
    rcases List.mem_cons.mp hx with rfl | hx
    · exact cont2ok_lt b x h1
    rcases List.mem_cons.mp hx with rfl | hx
    · exact contB_lt x h2
    rcases List.mem_cons.mp hx with rfl | hx
    · exact contB_lt x h3
    · exact ih h4 x hx

/-- On valid UTF-8 input the lossy decoder is the identity (so a Rust
`&str`'s bytes pass through `from_utf8_lossy` and through the UTF-8
charset decoder unchanged). -/
theorem from_utf8_lossy_of_valid :
    ∀ l : List Nat, utf8Valid l = true → from_utf8_lossy l = l := by
  intro l
  induction l using utf8Valid.induct with
  | case1 => intro h; rfl
  | case2 b rest hb ih =>
    intro h
    rw [utf8Valid.eq_def] at h
    simp only [if_pos hb] at h
    rw [from_utf8_lossy.eq_def]
    simp only [if_pos hb, ih h]
  | case3 b hb =>
    intro h
    rw [utf8Valid.eq_def] at h
    simp [hb] at h
  | case4 b hb c1 r1 hrange ih =>
    intro h
    rw [utf8Valid.eq_def] at h
    simp only [if_neg hb, hrange, if_true, Bool.and_eq_true] at h
    rw [from_utf8_lossy.eq_def]
    simp only [if_neg hb, hrange, if_true, h.1, ih h.2]
  | case5 b hb c1 hrange =>
    intro h
    rw [utf8Valid.eq_def] at h
    simp [hb, hrange] at h
  | case6 b hb c1 hr1 c2 r2 hrange ih =>
    intro h
    rw [utf8Valid.eq_def] at h
    simp only [if_neg hb, hr1, hrange, if_true, if_false, Bool.false_eq_true,
      Bool.and_eq_true] at h
    rw [from_utf8_lossy.eq_def]
    simp only [if_neg hb, hr1, hrange, if_true, if_false, Bool.false_eq_true,
      h.1.1, h.1.2, ih h.2]
  | case7 b hb c1 hr1 c2 hr2 =>
    intro h
    rw [utf8Valid.eq_def] at h
    simp [hb, hr1, hr2] at h
  | case8 b hb c1 hr1 c2 hr2 c3 r3 ih =>
    intro h
    rw [utf8Valid.eq_def] at h
    simp only [if_neg hb, hr1, hr2, if_false, Bool.false_eq_true, Bool.and_eq_true] at h
    obtain ⟨⟨⟨⟨hf, h1⟩, h2⟩, h3⟩, h4⟩ := h
    rw [from_utf8_lossy.eq_def]
    simp only [if_neg hb, hr1, hr2, hf, h1, h2, h3, if_true, if_false,
      Bool.false_eq_true, ih h4]
    simp

/-- A pure-ASCII byte sequence is valid UTF-8. -/
theorem utf8Valid_of_ascii : ∀ l : List Nat, (∀ x ∈ l, x < 128) → utf8Valid l = true := by
  intro l
  induction l with
  | nil => intro _; rfl
  | cons b rest ih =>
    intro h
    rw [utf8Valid.eq_def]
    have hb : b ≤ 127 := by have := h b (by simp); omega
    simp only [if_pos hb]
    exact ih fun x hx => h x (List.mem_cons_of_mem _ hx)

/-- On pure-ASCII bytes the lossy decoder is the identity. -/
theorem from_utf8_lossy_of_ascii (l : List Nat) (h : ∀ x ∈ l, x < 128) :
    from_utf8_lossy l = l :=
  from_utf8_lossy_of_valid l (utf8Valid_of_ascii l h)

theorem alphaVal_alphaChar : ∀ v : Nat, v < 64 → alphaVal (alphaChar v) = some v := by
  decide

theorem alphaChar_lt (v : Nat) : alphaChar v < 128 := by
  unfold alphaChar
  repeat' split
  all_goals omega

theorem alphaChar_ne_61 (v : Nat) : alphaChar v ≠ 61 := by
  unfold alphaChar
  repeat' split
  all_goals omega

theorem base64_decode_pad2 (x1 x2 : Nat) :
    base64_decode_bytes [x1, x2, 61, 61] = b64Final2 x1 x2 := by
  rfl

theorem base64_decode_pad1 (x1 x2 x3 : Nat) (h3 : x3 ≠ 61) :
    base64_decode_bytes [x1, x2, x3, 61] = b64Final3 x1 x2 x3 := by
  rw [base64_decode_bytes.eq_def]
  simp [h3]

theorem base64_decode_four (x1 x2 x3 x4 : Nat) (h4 : x4 ≠ 61) :
    base64_decode_bytes [x1, x2, x3, x4] = b64Quad x1 x2 x3 x4 := by
  rw [base64_decode_bytes.eq_def]
  simp [h4]

theorem base64_decode_cons (x1 x2 x3 x4 y : Nat) (ys : List Nat) :
    base64_decode_bytes (x1 :: x2 :: x3 :: x4 :: y :: ys) =
      match b64Quad x1 x2 x3 x4 with
      | .ok bs =>
        match base64_decode_bytes (y :: ys) with
        | .ok more => .ok (bs ++ more)
        | .error e => .error e
      | .error e => .error e := by
  rw [base64_decode_bytes.eq_def]
  simp

theorem base64_encode_ne_nil : ∀ l : List Nat, l ≠ [] → ∃ y ys, base64_encode l = y :: ys := by
  intro l hl
  match l with
  | [] => exact absurd rfl hl
  | [a] => exact ⟨_, _, rfl⟩
  | [a, b] => exact ⟨_, _, rfl⟩
  | a :: b :: c :: rest => exact ⟨_, _, rfl⟩

theorem b64Final2_alphaChar (v1 v2 : Nat) (h1 : v1 < 64) (h2 : v2 < 64) :
    b64Final2 (alphaChar v1) (alphaChar v2) =
      if v2 % 16 = 0 then .ok [v1 * 4 + v2 / 16] else .error .InvalidLastSymbol := by
  unfold b64Final2
  rw [alphaVal_alphaChar _ h1, alphaVal_alphaChar _ h2]

theorem b64Final3_alphaChar (v1 v2 v3 : Nat) (h1 : v1 < 64) (h2 : v2 < 64) (h3 : v3 < 64) :
    b64Final3 (alphaChar v1) (alphaChar v2) (alphaChar v3) =
      if v3 % 4 = 0 then .ok [v1 * 4 + v2 / 16, v2 % 16 * 16 + v3 / 4]
      else .error .InvalidLastSymbol := by
  unfold b64Final3
  rw [alphaVal_alphaChar _ h1, alphaVal_alphaChar _ h2, alphaVal_alphaChar _ h3]

theorem b64Quad_alphaChar (v1 v2 v3 v4 : Nat)
    (h1 : v1 < 64) (h2 : v2 < 64) (h3 : v3 < 64) (h4 : v4 < 64) :
    b64Quad (alphaChar v1) (alphaChar v2) (alphaChar v3) (alphaChar v4) =
      .ok [v1 * 4 + v2 / 16, v2 % 16 * 16 + v3 / 4, v3 % 4 * 64 + v4] := by
  unfold b64Quad
  rw [alphaVal_alphaChar _ h1, alphaVal_alphaChar _ h2, alphaVal_alphaChar _ h3,
    alphaVal_alphaChar _ h4]

/-- Round trip: strict base64 decoding inverts canonical base64
encoding. -/
theorem base64_roundtrip :
    ∀ bs : List Nat, (∀ x ∈ bs, x < 256) →
      base64_decode_bytes (base64_encode bs) = .ok bs := by
  intro bs
  induction bs using base64_encode.induct with
  | case1 => intro _; rfl
  | case2 a =>
    intro h
    have ha : a < 256 := h a (by simp)
    rw [base64_encode, base64_decode_pad2,
      b64Final2_alphaChar _ _ (by omega) (by omega),
      if_pos (show a % 4 * 16 % 16 = 0 by omega)]
    simp only [Except.ok.injEq, List.cons.injEq, and_true]
    omega
  | case3 a b =>
    intro h
    have ha : a < 256 := h a (by simp)
    have hb : b < 256 := h b (by simp)
    rw [base64_encode, base64_decode_pad1 _ _ _ (alphaChar_ne_61 _),
      b64Final3_alphaChar _ _ _ (by omega) (by omega) (by omega),
      if_pos (show b % 16 * 4 % 4 = 0 by omega)]
    simp only [Except.ok.injEq, List.cons.injEq, and_true]
    exact ⟨by omega, by omega⟩
  | case4 a b c rest ih =>
    intro h
    have ha : a < 256 := h a (by simp)
    have hb : b < 256 := h b (by simp)
    have hc : c < 256 := h c (by simp)
    have hrest : ∀ x ∈ rest, x < 256 := fun x hx => h x (by simp [hx])
    have hquad : b64Quad (alphaChar (a / 4)) (alphaChar (a % 4 * 16 + b / 16))
        (alphaChar (b % 16 * 4 + c / 64)) (alphaChar (c % 64)) = .ok [a, b, c] := by
      rw [b64Quad_alphaChar _ _ _ _ (by omega) (by omega) (by omega) (by omega)]
      simp only [Except.ok.injEq, List.cons.injEq, and_true]
      exact ⟨by omega, by omega, by omega⟩
    rcases rest with _ | ⟨r, rs⟩
    · rw [base64_encode, base64_encode,
        base64_decode_four _ _ _ _ (alphaChar_ne_61 _), hquad]
    · obtain ⟨y, ys, hys⟩ := base64_encode_ne_nil (r :: rs) (by simp)
      rw [base64_encode, hys, base64_decode_cons, hquad, ← hys, ih hrest]
      rfl

theorem alphaVal_95 : alphaVal 95 = none := by decide

theorem b64Final2_err (c1 c2 : Nat) (h : c1 = 95 ∨ c2 = 95) :
    ∃ e, b64Final2 c1 c2 = .error e := by
  unfold b64Final2
  rcases h with rfl | rfl
  · rw [alphaVal_95]
    cases alphaVal c2 <;> exact ⟨_, rfl⟩
  · rw [alphaVal_95]
    cases alphaVal c1 <;> exact ⟨_, rfl⟩

theorem b64Final3_err (c1 c2 c3 : Nat) (h : c1 = 95 ∨ c2 = 95 ∨ c3 = 95) :
    ∃ e, b64Final3 c1 c2 c3 = .error e := by
  unfold b64Final3
  rcases h with rfl | rfl | rfl
  · rw [alphaVal_95]
    cases alphaVal c2 <;> cases alphaVal c3 <;> exact ⟨_, rfl⟩
  · rw [alphaVal_95]
    cases alphaVal c1 <;> cases alphaVal c3 <;> exact ⟨_, rfl⟩
  · rw [alphaVal_95]
    cases alphaVal c1 <;> cases alphaVal c2 <;> exact ⟨_, rfl⟩

theorem b64Quad_err (c1 c2 c3 c4 : Nat) (h : c1 = 95 ∨ c2 = 95 ∨ c3 = 95 ∨ c4 = 95) :
    ∃ e, b64Quad c1 c2 c3 c4 = .error e := by
  unfold b64Quad
  rcases h with rfl | rfl | rfl | rfl
  · rw [alphaVal_95]
    cases alphaVal c2 <;> cases alphaVal c3 <;> cases alphaVal c4 <;> exact ⟨_, rfl⟩
  · rw [alphaVal_95]
    cases alphaVal c1 <;> cases alphaVal c3 <;> cases alphaVal c4 <;> exact ⟨_, rfl⟩
  · rw [alphaVal_95]
    cases alphaVal c1 <;> cases alphaVal c2 <;> cases alphaVal c4 <;> exact ⟨_, rfl⟩
  · rw [alphaVal_95]
    cases alphaVal c1 <;> cases alphaVal c2 <;> cases alphaVal c3 <;> exact ⟨_, rfl⟩

/-- A byte sequence containing an underscore is never valid base64
(underscore is outside the standard alphabet). -/
theorem base64_decode_underscore :
    ∀ l : List Nat, 95 ∈ l → ∃ e, base64_decode_bytes l = .error e := by
  intro l
  induction l using base64_decode_bytes.induct with
  | case1 => intro h; simp at h
  | case2 c => intro _; exact ⟨.InvalidLength, rfl⟩
  | case3 c1 c2 =>
    intro h
    simp only [List.mem_cons, List.not_mem_nil, or_false, eq_comm] at h
    obtain ⟨e, he⟩ := b64Final2_err c1 c2 h
    exact ⟨e, by rw [show base64_decode_bytes [c1, c2] = b64Final2 c1 c2 from rfl, he]⟩
  | case4 c1 c2 => intro _; exact ⟨.InvalidByte, rfl⟩
  | case5 c1 c2 c3 h61 =>
    intro h
    simp only [List.mem_cons, List.not_mem_nil, or_false, eq_comm] at h
    obtain ⟨e, he⟩ := b64Final3_err c1 c2 c3 h
    refine ⟨e, ?_⟩
    rw [base64_decode_bytes.eq_def]
    simp [h61, he]
  | case6 c1 c2 =>
    intro h
    have h2 : c1 = 95 ∨ c2 = 95 := by
      simp only [List.mem_cons, List.not_mem_nil, or_false, eq_comm] at h
      omega
    obtain ⟨e, he⟩ := b64Final2_err c1 c2 h2
    exact ⟨e, by rw [base64_decode_pad2, he]⟩
  | case7 c1 c2 c3 h61 =>
    intro h
    have h3 : c1 = 95 ∨ c2 = 95 ∨ c3 = 95 := by
      simp only [List.mem_cons, List.not_mem_nil, or_false, eq_comm] at h
      omega
    obtain ⟨e, he⟩ := b64Final3_err c1 c2 c3 h3
    exact ⟨e, by rw [base64_decode_pad1 c1 c2 c3 (fun hc => h61 hc), he]⟩
  | case8 c1 c2 c3 c4 h34 h4 =>
    intro h
    have hm : c1 = 95 ∨ c2 = 95 ∨ c3 = 95 ∨ c4 = 95 := by
      simp only [List.mem_cons, List.not_mem_nil, or_false, eq_comm] at h
      omega
    obtain ⟨e, he⟩ := b64Quad_err c1 c2 c3 c4 hm
    exact ⟨e, by rw [base64_decode_four c1 c2 c3 c4 (fun hc => h4 hc), he]⟩
  | case9 c1 c2 c3 c4 rest h1 h2 hne more hq more2 hrest ih =>
    intro h
    rcases rest with _ | ⟨y, ys⟩
    · exact absurd rfl hne
    by_cases hm : 95 ∈ y :: ys
    · obtain ⟨e, he⟩ := ih hm
      rw [hrest] at he
      exact absurd he (by simp)
    · have h4 : c1 = 95 ∨ c2 = 95 ∨ c3 = 95 ∨ c4 = 95 := by
        simp only [List.mem_cons, eq_comm] at h hm
        tauto
      obtain ⟨e, he⟩ := b64Quad_err c1 c2 c3 c4 h4
      rw [hq] at he
      exact absurd he (by simp)
  | case10 c1 c2 c3 c4 rest h1 h2 hne more hq e hrest ih =>
    intro h
    rcases rest with _ | ⟨y, ys⟩
    · exact absurd rfl hne
    refine ⟨e, ?_⟩
    rw [base64_decode_cons, hq, hrest]
  | case11 c1 c2 c3 c4 rest h1 h2 hne e hq =>
    intro h
    rcases rest with _ | ⟨y, ys⟩
    · exact absurd rfl hne
    refine ⟨e, ?_⟩
    rw [base64_decode_cons, hq]

/-- In `Robust` mode, line decoding never fails. -/
theorem qpLine_robust_ok : ∀ l : List Nat, ∃ p, qpLine .Robust l = .ok p := by
  intro l
  refine qpLine.induct QPParseMode.Robust
    (fun l => ∃ p, qpLine QPParseMode.Robust l = .ok p)
    ?_ ?_ ?_ ?_ ?_ ?_ ?_ ?_ ?_ ?_ ?_ ?_ l
  · exact ⟨([], false), rfl⟩
  · exact ⟨([], true), rfl⟩
  · intro u hs
    exact absurd hs (by simp)
  · intro u hs
    exact ⟨([61, u], false), by rw [qpLine.eq_def]; simp⟩
  · intro u v r hhex hlow
    exact absurd hlow (by simp)
  · intro u v r hhex hlow bs soft hr ih
    refine ⟨((hexVal u * 16 + hexVal v) :: bs, soft), ?_⟩
    rw [qpLine.eq_def]
    simp [hhex, hr]
  · intro u v r hhex hlow e hr ih
    obtain ⟨p, hp⟩ := ih
    rw [hp] at hr
    exact absurd hr (by simp)
  · intro u v r hhex hs
    exact absurd hs (by simp)
  · intro u v r hhex hs bs soft hr ih
    refine ⟨(61 :: u :: v :: bs, soft), ?_⟩
    rw [qpLine.eq_def]
    simp [hhex, hr]
  · intro u v r hhex hs e hr ih
    obtain ⟨p, hp⟩ := ih
    rw [hp] at hr
    exact absurd hr (by simp)
  · intro c rest hc bs soft hr ih
    refine ⟨(c :: bs, soft), ?_⟩
    rw [qpLine.eq_def]
    simp [hc, hr]
  · intro c rest hc e hr ih
    obtain ⟨p, hp⟩ := ih
    rw [hp] at hr
    exact absurd hr (by simp)

/-- In `Robust` mode, multi-line decoding never fails. -/
theorem qpLines_robust_ok : ∀ ls : List (List Nat), ∃ v, qpLines .Robust ls = .ok v := by
  intro ls
  refine qpLines.induct QPParseMode.Robust
    (fun ls => ∃ v, qpLines QPParseMode.Robust ls = .ok v)
    ?_ ?_ ?_ ?_ ?_ ?_ ?_ ls
  · exact ⟨[], rfl⟩
  · intro line bs soft hline hsoft
    exact absurd hsoft (by simp)
  · intro line bs soft hline hsoft
    refine ⟨bs, ?_⟩
    rw [qpLines.eq_def]
    simp [hline]
  · intro line e hline
    obtain ⟨p, hp⟩ := qpLine_robust_ok (trimEndWs line)
    rw [hp] at hline
    exact absurd hline (by simp)
  · intro line rest hne bs soft hline more hrest ih
    rcases rest with _ | ⟨l2, ls2⟩
    · exact absurd rfl hne
    refine ⟨bs ++ (if soft then [] else [13, 10]) ++ more, ?_⟩
    rw [qpLines.eq_def]
    simp [hline, hrest]
  · intro line rest hne bs soft hline e hrest ih
    obtain ⟨v, hv⟩ := ih
    rw [hv] at hrest
    exact absurd hrest (by simp)
  · intro line rest hne e hline
    obtain ⟨p, hp⟩ := qpLine_robust_ok (trimEndWs line)
    rw [hp] at hline
    exact absurd hline (by simp)

/-- In `Robust` mode, `quoted_printable::decode` never fails. -/
theorem quoted_printable_decode_robust_ok :
    ∀ l : List Nat, ∃ v, quoted_printable_decode .Robust l = .ok v := by
  intro l
  unfold quoted_printable_decode
  simp only [show ¬(QPParseMode.Robust = QPParseMode.Strict ∧
    (l.filter qpKeepByte).length ≠ l.length) from by simp, if_false, ite_false]
  exact qpLines_robust_ok _

/-- The evaluator's quoted-printable path never fails. -/
theorem decode_quoted_printable_ok :
    ∀ b : List Nat, ∃ v, decode_quoted_printable b = .ok v := by
  intro b
  simp only [decode_quoted_printable]
  obtain ⟨v, hv⟩ := quoted_printable_decode_robust_ok
    (b.map fun x => if x = 95 then 32 else x)
  rw [hv]
  exact ⟨v, rfl⟩

theorem qpKeepByte_plain (x : Nat) (h1 : 32 ≤ x) (h2 : x ≤ 126) : qpKeepByte x = true := by
  simp [qpKeepByte, h1, h2]

theorem rustLinesGo_no_lf : ∀ (l : List Nat) (cur : List Nat), (∀ x ∈ l, x ≠ 10) →
    rustLinesGo cur l = if cur = [] ∧ l = [] then [] else [cur.reverse ++ l] := by
  intro l
  induction l with
  | nil =>
    intro cur h
    rw [rustLinesGo.eq_def]
    by_cases hc : cur = [] <;> simp [hc]
  | cons c rest ih =>
    intro cur h
    have hc : c ≠ 10 := h c (by simp)
    rw [rustLinesGo.eq_def]
    have hrest : ∀ x ∈ rest, x ≠ 10 := fun x hx => h x (by simp [hx])
    simp only [hc]
    rw [ih (c :: cur) hrest]
    simp [List.reverse_cons, List.append_assoc]

/-- A byte sequence without line feeds forms a single line. -/
theorem rustLines_single (l : List Nat) (hne : l ≠ []) (h : ∀ x ∈ l, x ≠ 10) :
    rustLines l = [l] := by
  unfold rustLines
  rw [rustLinesGo_no_lf l [] h]
  simp [hne]

/-- Line decoding is the identity on lines without `=`. -/
theorem qpLine_plain : ∀ l : List Nat, (∀ x ∈ l, x ≠ 61) →
    qpLine .Robust l = .ok (l, false) := by
  intro l
  induction l with
  | nil => intro _; rfl
  | cons c rest ih =>
    intro h
    have hc : c ≠ 61 := h c (by simp)
    have hrest : ∀ x ∈ rest, x ≠ 61 := fun x hx => h x (by simp [hx])
    rw [qpLine.eq_def]
    simp only [hc]
    rw [ih hrest]

/-- Robust quoted-printable decoding is the identity on inputs of
printable ASCII bytes other than `=`. -/
theorem mem_of_mem_dropWhile {x : Nat} {p : Nat → Bool} :
    ∀ {l : List Nat}, x ∈ l.dropWhile p → x ∈ l := by
  intro l
  induction l with
  | nil => intro h; simp [List.dropWhile] at h
  | cons a rest ih =>
    intro h
    rw [List.dropWhile_cons] at h
    by_cases hp : p a = true
    · simp only [hp, if_true] at h
      exact List.mem_cons_of_mem a (ih h)
    · simp only [hp, if_false] at h
      simpa using h

theorem mem_trimEndWs {x : Nat} {l : List Nat} (h : x ∈ trimEndWs l) : x ∈ l := by
  unfold trimEndWs at h
  rw [List.mem_reverse] at h
  have hm := mem_of_mem_dropWhile h
  rwa [List.mem_reverse] at hm

theorem trimEndWs_eq_self (l : List Nat)
    (h : ∀ x, l.getLast? = some x → x ≠ 32 ∧ x ≠ 9) : trimEndWs l = l := by
  unfold trimEndWs
  rcases hrev : l.reverse with _ | ⟨y, ys⟩
  · simp [List.reverse_eq_nil_iff.mp hrev]
  · have hy : l.getLast? = some y := by
      rw [← List.head?_reverse, hrev]
      rfl
    obtain ⟨h32, h9⟩ := h y hy
    rw [List.dropWhile_cons, if_neg (by simp [h32, h9])]
    rw [← hrev, List.reverse_reverse]

theorem quoted_printable_decode_plain (l : List Nat)
    (h : ∀ x ∈ l, 32 ≤ x ∧ x ≤ 126 ∧ x ≠ 61) :
    quoted_printable_decode .Robust l = .ok (trimEndWs l) := by
  unfold quoted_printable_decode
  have hfilter : l.filter qpKeepByte = l :=
    List.filter_eq_self.mpr fun x hx => qpKeepByte_plain x (h x hx).1 (h x hx).2.1
  simp only [hfilter]
  rw [if_neg (by simp)]
  rcases List.eq_nil_or_concat l with rfl | _
  · rfl
  · have hne : l ≠ [] := by
      rename_i hc
      obtain ⟨ys, y, rfl⟩ := hc
      simp
    rw [rustLines_single l hne fun x hx => by have := (h x hx).1; omega]
    rw [qpLines.eq_def]
    simp [qpLine_plain (trimEndWs l) fun x hx => (h x (mem_trimEndWs hx)).2.2]

/-- The underscore rewrite applied by the quoted-printable path. -/
def underscoreToSpace (b : Nat) : Nat := if b = 95 then 32 else b

theorem decode_quoted_printable_plain (b : List Nat)
    (h : ∀ x ∈ b, 33 ≤ x ∧ x ≤ 126 ∧ x ≠ 61) :
    decode_quoted_printable b = .ok (trimEndWs (b.map underscoreToSpace)) := by
  simp only [decode_quoted_printable]
  have hmap : ∀ y ∈ b.map fun x => if x = 95 then 32 else x, 32 ≤ y ∧ y ≤ 126 ∧ y ≠ 61 := by
    intro y hy
    simp only [List.mem_map] at hy
    obtain ⟨x, hx, rfl⟩ := hy
    obtain ⟨h1, h2, h3⟩ := h x hx
    by_cases h95 : x = 95
    · simp [h95]
    · simp [h95]; omega
  rw [quoted_printable_decode_plain _ hmap]
  rfl

theorem decode_quoted_printable_plain_of_last (b : List Nat)
    (h : ∀ x ∈ b, 33 ≤ x ∧ x ≤ 126 ∧ x ≠ 61) (hlast : b.getLast? ≠ some 95) :
    decode_quoted_printable b = .ok (b.map underscoreToSpace) := by
  rw [decode_quoted_printable_plain b h]
  congr 1
  apply trimEndWs_eq_self
  intro x hx
  rw [List.getLast?_map] at hx
  rcases hl : b.getLast? with _ | y
  · rw [hl] at hx
    simp at hx
  · rw [hl] at hx
    have hxy : underscoreToSpace y = x := by
      simpa using hx
    obtain ⟨hne2, hy2⟩ := List.mem_getLast?_eq_getLast (Option.mem_def.mpr hl)
    have hy := h y (hy2 ▸ List.getLast_mem hne2)
    have hy95 : y ≠ 95 := by
      intro hc
      rw [hc] at hl
      exact hlast hl
    rw [← hxy]
    unfold underscoreToSpace
    rw [if_neg hy95]
    constructor <;> omega

theorem decode_with_encoding_B (b : List Nat) :
    decode_with_encoding 66 b = decode_base64 b := by
  unfold decode_with_encoding char_to_uppercase_first
  norm_num

theorem decode_with_encoding_lower_b (b : List Nat) :
    decode_with_encoding 98 b = decode_base64 b := by
  unfold decode_with_encoding char_to_uppercase_first
  norm_num

theorem decode_with_encoding_other (c : Nat) (b : List Nat)
    (h : char_to_uppercase_first c ≠ 66) :
    decode_with_encoding c b = decode_quoted_printable b := by
  unfold decode_with_encoding
  rw [if_neg h]

theorem decode_with_charset_ok (charset decoded_bytes : List Nat) :
    decode_with_charset charset decoded_bytes =
      .ok (match charset_for_label charset with
        | some cs => charset_decode cs decoded_bytes
        | none => charset_decode_ascii decoded_bytes) := rfl

theorem evalNode_clear_valid (b : List Nat) (h : utf8Valid b = true) :
    evalNode (.ClearBytes b) = b := by
  simp [evalNode, decode_utf8, h]

theorem evalNode_clear_invalid (b : List Nat) (h : utf8Valid b = false) :
    evalNode (.ClearBytes b) = from_utf8_lossy b := by
  simp [evalNode, decode_utf8, h]

theorem evalNode_encoded_err (w : EncodedBytesData) (e : Error)
    (h : decode_with_encoding w.encoding w.bytes = .error e) :
    evalNode (.EncodedBytes w) = from_utf8_lossy w.bytes := by
  simp only [evalNode]
  rw [h]

theorem evalNode_encoded_ok (w : EncodedBytesData) (db : List Nat)
    (h : decode_with_encoding w.encoding w.bytes = .ok db) :
    evalNode (.EncodedBytes w) =
      (match charset_for_label w.charset with
        | some cs => charset_decode cs db
        | none => charset_decode_ascii db) := by
  simp only [evalNode]
  rw [h]
  rfl

/-! ## The claims -/

/-- C1: evaluation is total — for every segment sequence `run` returns
`Ok` with a string, never an error of any kind, and the empty sequence
yields the empty string. -/
theorem claim_C1 :
    (∀ ast : Ast, ∃ s, run ast = .ok s) ∧
    (∀ (ast : Ast) (e : Error), run ast ≠ .error e) ∧
    run ([] : Ast) = .ok ([] : List Nat) :=
  ⟨fun ast => ⟨ast.foldl runBody [], rfl⟩,
   fun ast e h => by simp [run] at h,
   rfl⟩

/-- Witness for C1 at concrete inputs. -/
theorem claim_C1_witness :
    run ([Node.ClearBytes [104]] : Ast) ≠ .error .DecodeUtf8Error ∧
    (∃ s, run ([] : Ast) = .ok s) :=
  ⟨claim_C1.2.1 [Node.ClearBytes [104]] .DecodeUtf8Error, claim_C1.1 []⟩

/-- C2: the output of `run` is the ordered concatenation of each
segment's individually computed text (so reordering segments reorders
the output identically), and a clear segment with valid UTF-8 bytes
contributes exactly those bytes. -/
theorem claim_C2 :
    (∀ ast : Ast, run ast = .ok ((ast.map evalNode).flatten)) ∧
    (∀ b : List Nat, utf8Valid b = true → evalNode (.ClearBytes b) = b) :=
  ⟨run_eq_flatten, fun b h => evalNode_clear_valid b h⟩

/-- Witness for C2 at concrete inputs. -/
theorem claim_C2_witness :
    run [Node.ClearBytes [104, 105], Node.ClearBytes [33]] =
      .ok ((([Node.ClearBytes [104, 105], Node.ClearBytes [33]] : Ast).map evalNode).flatten) ∧
    evalNode (.ClearBytes [104, 105]) = [104, 105] :=
  ⟨claim_C2.1 [Node.ClearBytes [104, 105], Node.ClearBytes [33]],
   claim_C2.2 [104, 105] (by decide)⟩

/-- C3: every failure site substitutes the lossy interpretation of the
segment's original raw bytes: an invalid clear segment, a failed
transfer decode, and (vacuously, since the charset stage is total) a
failed charset decode. -/
theorem claim_C3 :
    (∀ b : List Nat, utf8Valid b = false →
      evalNode (.ClearBytes b) = from_utf8_lossy b) ∧
    (∀ (w : EncodedBytesData) (e : Error),
      decode_with_encoding w.encoding w.bytes = .error e →
      evalNode (.EncodedBytes w) = from_utf8_lossy w.bytes) ∧
    (∀ (w : EncodedBytesData) (db : List Nat) (e : Error),
      decode_with_encoding w.encoding w.bytes = .ok db →
      decode_with_charset w.charset db = .error e →
      evalNode (.EncodedBytes w) = from_utf8_lossy w.bytes) ∧
    (∀ cs db : List Nat, ∃ s, decode_with_charset cs db = .ok s) := by
  refine ⟨fun b h => evalNode_clear_invalid b h,
    fun w e h => evalNode_encoded_err w e h,
    fun w db e hok herr => ?_,
    fun cs db => ⟨_, rfl⟩⟩
  rw [decode_with_charset_ok] at herr
  exact absurd herr (by simp)

/-- Witness for C3 at concrete inputs: an invalid clear segment and a
malformed base64 segment. -/
theorem claim_C3_witness :
    evalNode (.ClearBytes [255]) = from_utf8_lossy [255] ∧
    evalNode (.EncodedBytes ⟨[85, 84, 70, 45, 56], 66, [33, 33, 33]⟩) =
      from_utf8_lossy [33, 33, 33] :=
  ⟨claim_C3.1 [255] (by decide),
   claim_C3.2.1 ⟨[85, 84, 70, 45, 56], 66, [33, 33, 33]⟩
     (.DecodeBase64Error .InvalidByte) (by decide)⟩

/-- C4: tag dispatch is case-insensitive; `B`/`b` select strict base64
(which fails on bytes outside the alphabet, e.g. `!!!`), and every
other tag selects robust quoted-printable decoding, which is not an
error path. -/
theorem claim_C4 :
    (∀ b : List Nat, decode_with_encoding 66 b = decode_base64 b ∧
      decode_with_encoding 98 b = decode_base64 b) ∧
    (∀ (c : Nat) (b : List Nat), char_to_uppercase_first c ≠ 66 →
      decode_with_encoding c b = decode_quoted_printable b) ∧
    (∃ e, decode_with_encoding 66 [33, 33, 33] = .error e) ∧
    (∀ (c : Nat) (b : List Nat), char_to_uppercase_first c ≠ 66 →
      ∃ v, decode_with_encoding c b = .ok v) := by
  refine ⟨fun b => ⟨decode_with_encoding_B b, decode_with_encoding_lower_b b⟩,
    fun c b h => decode_with_encoding_other c b h,
    ⟨.DecodeBase64Error .InvalidByte, by decide⟩,
    fun c b h => ?_⟩
  rw [decode_with_encoding_other c b h]
  exact decode_quoted_printable_ok b

/-- Witness for C4 at concrete inputs (`Q` tag 81, `*` tag 42). -/
theorem claim_C4_witness :
    decode_with_encoding 66 [97, 71, 107, 61] = decode_base64 [97, 71, 107, 61] ∧
    decode_with_encoding 81 [97] = decode_quoted_printable [97] ∧
    (∃ v, decode_with_encoding 42 [61] = .ok v) :=
  ⟨(claim_C4.1 [97, 71, 107, 61]).1,
   claim_C4.2.1 81 [97] (by decide),
   claim_C4.2.2.2 42 [61] (by decide)⟩

/-- C5 counterexample: with the unresolvable label `xyz`, the byte
`0x07` (BEL), which lies outside the printable-ASCII range, is kept
as-is by the ASCII fallback rather than replaced by the replacement
marker, so "every byte outside the printable-ASCII range is replaced"
is false. -/
theorem claim_C5_counterexample :
    charset_for_label [120, 121, 122] = none ∧
    decode_with_charset [120, 121, 122] [7] = .ok [7] ∧
    ¬(32 ≤ 7 ∧ 7 ≤ 126) ∧
    ([7] : List Nat) ≠ replacementBytes := by
  refine ⟨by decide, by decide, by decide, by decide⟩

/-- C5 (amended): the charset stage always returns `Ok`; a resolved
label decodes with that charset's lossy transform, and an unresolved
label falls back to ASCII decoding in which every byte `0x80` and above
(not: outside the printable-ASCII range) is replaced by the replacement
marker while every byte below `0x80`, printable or not, is kept. -/
theorem claim_C5 :
    (∀ cs b : List Nat, ∃ s, decode_with_charset cs b = .ok s) ∧
    (∀ (cs b : List Nat) (c : CharsetModel), charset_for_label cs = some c →
      decode_with_charset cs b = .ok (charset_decode c b)) ∧
    (∀ cs b : List Nat, charset_for_label cs = none →
      decode_with_charset cs b =
        .ok (b.flatMap fun x => if x < 128 then [x] else replacementBytes)) := by
  refine ⟨fun cs b => ⟨_, rfl⟩, fun cs b c h => ?_, fun cs b h => ?_⟩
  · rw [decode_with_charset_ok, h]
  · rw [decode_with_charset_ok, h]
    rfl

/-- Witness for C5 at concrete inputs. -/
theorem claim_C5_witness :
    decode_with_charset [85, 84, 70, 45, 56] [104] =
      .ok (charset_decode .utf8 [104]) ∧
    decode_with_charset [120, 121, 122] [7, 200] =
      .ok (([7, 200] : List Nat).flatMap fun x => if x < 128 then [x] else replacementBytes) :=
  ⟨claim_C5.2.1 [85, 84, 70, 45, 56] [104] .utf8 (by decide),
   claim_C5.2.2 [120, 121, 122] [7, 200] (by decide)⟩

/-- C6 counterexample: for the `Q`-tagged segment bytes `a_` the
trailing underscore does not decode to a space in the output — the
rewrite turns it into a trailing space, which the quoted-printable
decoder removes as transport padding, so the output is just `a`
(the underscore never appears literally either). -/
theorem claim_C6_counterexample :
    decode_with_encoding 81 [97, 95] = .ok [97] ∧
    95 ∈ ([97, 95] : List Nat) ∧
    32 ∉ ([97] : List Nat) := ⟨by decide, by decide, by decide⟩

/-- C6 (amended): the underscore-to-space rewrite is applied to the
byte stream unconditionally before robust quoted-printable decoding,
not conditionally on the tag; for an encoded segment with a non-`B` tag
made of printable bytes other than `=`, the output is the rewritten
bytes with trailing transport padding trimmed, so every underscore
comes out as a space except a trailing underscore, whose rewritten
space is trimmed away (it never surfaces as a literal underscore). -/
theorem claim_C6 :
    (∀ b : List Nat, decode_quoted_printable b =
      (match quoted_printable_decode .Robust (b.map underscoreToSpace) with
        | .ok v => .ok v
        | .error e => .error (.DecodeQuotedPrintableError e))) ∧
    (∀ (c : Nat) (b : List Nat), char_to_uppercase_first c ≠ 66 →
      (∀ x ∈ b, 33 ≤ x ∧ x ≤ 126 ∧ x ≠ 61) →
      decode_with_encoding c b = .ok (trimEndWs (b.map underscoreToSpace))) ∧
    (∀ (c : Nat) (b : List Nat), char_to_uppercase_first c ≠ 66 →
      (∀ x ∈ b, 33 ≤ x ∧ x ≤ 126 ∧ x ≠ 61) → b.getLast? ≠ some 95 →
      decode_with_encoding c b = .ok (b.map underscoreToSpace)) := by
  refine ⟨fun b => rfl, fun c b h hb => ?_, fun c b h hb hlast => ?_⟩
  · rw [decode_with_encoding_other c b h]
    exact decode_quoted_printable_plain b hb
  · rw [decode_with_encoding_other c b h]
    exact decode_quoted_printable_plain_of_last b hb hlast

/-- Witness for C6 at concrete inputs: tag `Q` (81), bytes `a_b`
(internal underscore becomes a space) and `a_` (trailing underscore is
trimmed with the padding). -/
theorem claim_C6_witness :
    decode_quoted_printable [97, 95, 98] =
      (match quoted_printable_decode .Robust ([97, 95, 98].map underscoreToSpace) with
        | .ok v => .ok v
        | .error e => .error (.DecodeQuotedPrintableError e)) ∧
    decode_with_encoding 81 [97, 95, 98] = .ok [97, 32, 98] ∧
    decode_with_encoding 81 [97, 95] = .ok [97] :=
  ⟨claim_C6.1 [97, 95, 98],
   (claim_C6.2.2 81 [97, 95, 98] (by decide) (by decide) (by decide)).trans (by decide),
   (claim_C6.2.1 81 [97, 95] (by decide) (by decide)).trans (by decide)⟩

/-- C7 counterexample: a single encoded segment with tag `Q` and the
non-empty raw bytes `[0x0A]` (a lone line feed) evaluates to the empty
string, so a non-empty segment sequence can yield empty output even
though a segment's raw bytes are non-empty. -/
theorem claim_C7_counterexample :
    run [.EncodedBytes ⟨[117, 116, 102, 45, 56], 81, [10]⟩] = .ok ([] : List Nat) ∧
    ([10] : List Nat) ≠ [] := ⟨by decide, by decide⟩

/-- C7 (amended): the output is empty exactly when every segment's
decoded text is empty, and a clear segment with non-empty raw bytes
always contributes non-empty text; but an encoded segment can decode
non-empty raw bytes to empty text on the successful quoted-printable
path, so non-empty raw bytes do not guarantee non-empty output. -/
theorem claim_C7 :
    (∀ ast : Ast, run ast = .ok ([] : List Nat) ↔ ∀ n ∈ ast, evalNode n = []) ∧
    (∀ b : List Nat, b ≠ [] → evalNode (.ClearBytes b) ≠ []) := by
  constructor
  · intro ast
    rw [run_eq_flatten]
    constructor
    · intro h n hn
      have hflat : (ast.map evalNode).flatten = [] := by
        simpa using h
      rw [List.flatten_eq_nil_iff] at hflat
      exact hflat _ (List.mem_map_of_mem evalNode hn)
    · intro h
      have : (ast.map evalNode).flatten = [] := by
        rw [List.flatten_eq_nil_iff]
        intro l hl
        obtain ⟨n, hn, rfl⟩ := List.mem_map.mp hl
        exact h n hn
      rw [this]
  · intro b hb
    rcases hv : utf8Valid b with hfalse | htrue
    · rw [evalNode_clear_invalid b hv]
      exact from_utf8_lossy_ne_nil b hb
    · rw [evalNode_clear_valid b hv]
      exact hb

/-- Witness for C7 at concrete inputs. -/
theorem claim_C7_witness :
    run ([] : Ast) = .ok ([] : List Nat) ∧
    evalNode (.ClearBytes [255]) ≠ [] :=
  ⟨(claim_C7.1 []).mpr (by simp), claim_C7.2 [255] (by decide)⟩

/-- The leading byte of a valid UTF-8 sequence is at most `0xF4`. -/
theorem utf8Valid_head_lt (x : Nat) (r : List Nat) (h : utf8Valid (x :: r) = true) :
    x < 245 := by
  by_contra hx
  push_neg at hx
  have h127 : ¬x ≤ 127 := by omega
  have h223 : ¬(decide (194 ≤ x) && decide (x ≤ 223)) = true := by simp; omega
  have h239 : ¬(decide (224 ≤ x) && decide (x ≤ 239)) = true := by simp; omega
  rw [utf8Valid.eq_def] at h
  rcases r with _ | ⟨c1, r1⟩
  · simp [h127] at h
  rcases r1 with _ | ⟨c2, r2⟩
  · simp [h127, h223] at h
  rcases r2 with _ | ⟨c3, r3⟩
  · simp [h127, h223, h239] at h
  · simp [h127, h223, h239] at h
    omega

/-- On valid UTF-8 input that does not begin with the UTF-8 byte-order
mark, BOM sniffing falls through and the UTF-8 charset decode is the
plain lossy decode.  (Valid UTF-8 can never begin with `0xFE` or
`0xFF`, so the UTF-16 BOM cases are impossible.) -/
theorem charset_decode_utf8_noBom (b : List Nat) (hv : utf8Valid b = true)
    (hbom : b.take 3 ≠ [239, 187, 191]) :
    charset_decode .utf8 b = from_utf8_lossy b := by
  rw [charset_decode.eq_def]
  split
  · rename_i rest
    exact absurd rfl hbom
  · rename_i rest
    have := utf8Valid_head_lt 254 (255 :: rest) hv
    omega
  · rename_i rest
    have := utf8Valid_head_lt 255 (254 :: rest) hv
    omega
  · rfl

/-- C8 counterexample: for text beginning with the UTF-8 byte-order
mark the round trip does not return the original bytes — the charset
stage sniffs and strips the BOM, so the BOM-prefixed text `EF BB BF h`
comes back as just `h`. -/
theorem claim_C8_counterexample :
    utf8Valid [239, 187, 191, 104] = true ∧
    run [.EncodedBytes ⟨[85, 84, 70, 45, 56], 66, base64_encode [239, 187, 191, 104]⟩] =
      .ok [104] ∧
    ([104] : List Nat) ≠ [239, 187, 191, 104] := ⟨by decide, by decide, by decide⟩

/-- C8 (amended): base64 round trip — for valid UTF-8 bytes that do
not begin with a byte-order mark, encoding them with base64 and
evaluating a single encoded segment tagged `B` with charset label
`UTF-8` yields exactly the original text.  (Only the UTF-8 BOM
`EF BB BF` needs excluding: valid UTF-8 cannot begin with a UTF-16
BOM.) -/
theorem claim_C8 :
    ∀ b : List Nat, utf8Valid b = true → b.take 3 ≠ [239, 187, 191] →
      run [.EncodedBytes ⟨[85, 84, 70, 45, 56], 66, base64_encode b⟩] = .ok b := by
  intro b h hbom
  rw [run_eq_flatten]
  have hdec : decode_with_encoding 66 (base64_encode b) = .ok b := by
    rw [decode_with_encoding_B]
    unfold decode_base64
    rw [base64_roundtrip b (utf8Valid_bytes_lt b h)]
  have he := evalNode_encoded_ok ⟨[85, 84, 70, 45, 56], 66, base64_encode b⟩ b hdec
  rw [show charset_for_label [85, 84, 70, 45, 56] = some CharsetModel.utf8 from by decide]
    at he
  have he2 : evalNode (.EncodedBytes ⟨[85, 84, 70, 45, 56], 66, base64_encode b⟩) =
      charset_decode .utf8 b := by
    rw [he]
  simp only [List.map_cons, List.map_nil, List.flatten, he2, List.append_nil]
  rw [charset_decode_utf8_noBom b h hbom, from_utf8_lossy_of_valid b h]

/-- Witness for C8 at a concrete input (the text `hi`). -/
theorem claim_C8_witness :
    run [.EncodedBytes ⟨[85, 84, 70, 45, 56], 66, base64_encode [104, 105]⟩] =
      .ok [104, 105] :=
  claim_C8 [104, 105] (by decide) (by decide)

/-- C9 counterexample: the claim asserts the existence of byte
sequences on which the quoted-printable path fails; in fact robust-mode
decoding succeeds even on the canonically malformed quoted-printable
inputs — a lone `=`, an invalid hex escape `=zz`, a bare control byte —
under both the `Q` tag and an arbitrary tag (the amended theorem proves
`Ok` for every byte sequence, so no failing input exists). -/
theorem claim_C9_counterexample :
    decode_with_encoding 81 [61] = .ok [] ∧
    decode_with_encoding 81 [61, 122, 122] = .ok [61, 122, 122] ∧
    decode_with_encoding 81 [0] = .ok [] ∧
    decode_with_encoding 113 [61, 65] = .ok [61, 65] := by
  refine ⟨by decide, by decide, by decide, by decide⟩

/-- C9 (amended): the quoted-printable path is total — for every non-`B`
tag and every byte sequence, `decode_with_encoding` returns `Ok`, and
`DecodeQuotedPrintableError` is never produced. -/
theorem claim_C9 :
    ∀ (c : Nat) (b : List Nat), char_to_uppercase_first c ≠ 66 →
      ∃ v, decode_with_encoding c b = .ok v := by
  intro c b h
  rw [decode_with_encoding_other c b h]
  exact decode_quoted_printable_ok b

/-- Witness for C9 at a concrete input: tag `Q` (81) and the lone
byte `=`, the most malformed quoted-printable input. -/
theorem claim_C9_witness :
    ∃ v, decode_with_encoding 81 [61] = .ok v :=
  claim_C9 81 [61] (by decide)

/-- C10: the underscore rewrite does not apply on the base64 path — a
segment tagged `B` (66) or `b` (98) whose bytes contain an underscore
fails base64 decoding, and the fallback is the lossy interpretation of
the raw bytes in which sub-`0x80` bytes (underscores included) appear
literally. -/
theorem claim_C10 :
    (∀ w : EncodedBytesData, w.encoding = 66 ∨ w.encoding = 98 → 95 ∈ w.bytes →
      (∃ e, decode_with_encoding w.encoding w.bytes = .error e) ∧
      evalNode (.EncodedBytes w) = from_utf8_lossy w.bytes) ∧
    (∀ b : List Nat, (∀ x ∈ b, x < 128) → from_utf8_lossy b = b) := by
  constructor
  · intro w h66 hmem
    obtain ⟨e, he⟩ := base64_decode_underscore w.bytes hmem
    have herr : decode_with_encoding w.encoding w.bytes =
        .error (.DecodeBase64Error e) := by
      rcases h66 with h66 | h66
      · rw [h66, decode_with_encoding_B]
        unfold decode_base64
        rw [he]
      · rw [h66, decode_with_encoding_lower_b]
        unfold decode_base64
        rw [he]
    exact ⟨⟨.DecodeBase64Error e, herr⟩, evalNode_encoded_err w _ herr⟩
  · exact from_utf8_lossy_of_ascii

/-- Witness for C10 at concrete inputs: tags `B` (66) and `b` (98),
bytes `a_b`. -/
theorem claim_C10_witness :
    (∃ e, decode_with_encoding 66 [97, 95, 98] = .error e) ∧
    (∃ e, decode_with_encoding 98 [97, 95, 98] = .error e) ∧
    evalNode (.EncodedBytes ⟨[85, 84, 70, 45, 56], 98, [97, 95, 98]⟩) =
      from_utf8_lossy [97, 95, 98] ∧
    from_utf8_lossy [97, 95, 98] = [97, 95, 98] :=
  ⟨(claim_C10.1 ⟨[85, 84, 70, 45, 56], 66, [97, 95, 98]⟩ (Or.inl rfl) (by decide)).1,
   (claim_C10.1 ⟨[85, 84, 70, 45, 56], 98, [97, 95, 98]⟩ (Or.inr rfl) (by decide)).1,
   (claim_C10.1 ⟨[85, 84, 70, 45, 56], 98, [97, 95, 98]⟩ (Or.inr rfl) (by decide)).2,
   claim_C10.2 [97, 95, 98] (by decide)⟩
